import Mathlib

/-!
Shallow embedding of the session core of `src/App.tsx` (the "YingYu Talk"
live English-tutoring app): the playback scheduler, the transcript
aggregation into the chat-message log, and the session lifecycle
(`startSession` / `handleLiveMessage` / `endSession`).

Modelling conventions:
  * The mutable React refs and state hooks become fields of one `AppState`
    record; each handler becomes a pure function `AppState → AppState`.
  * Audio-clock values and chunk durations are rationals.
  * `Date.now().toString()` message identifiers become a deterministic
    counter (`nextId`); no claim depends on the identifier values.
  * The `isPartial` flag of `ChatMessage` is called `isDraft` here
    (same meaning, renamed only in this development).
  * `AudioBufferSourceNode`s become numeric handles; following the Web
    Audio API, a scheduled source's `ended` callback eventually fires
    (also when the source is halted by `stop()`), which the state tracks
    with the `pendingOnEnded` list; the debounce `setTimeout` that flips
    the indicator is tracked by `pendingIdleTimers`.
-/

namespace LearnEnglish

/-- Speaker role of a chat message (`'user' | 'model'` in `types.ts`). -/
inductive Role
  | user
  | model
deriving DecidableEq

/-- `ChatMessage` of `types.ts` (the optional `correction` field is never
written by `App.tsx` and is omitted). `isDraft` embeds the source's
`isPartial` flag. -/
structure ChatMessage where
  id : Nat
  role : Role
  text : String
  isDraft : Bool
deriving DecidableEq

/-- `ConnectionStatus` of `types.ts`. -/
inductive ConnectionStatus
  | disconnected
  | connecting
  | connected
  | error
deriving DecidableEq

/-- The `audioMode` indicator state of `App.tsx`. -/
inductive AudioMode
  | listening
  | speaking
  | idle
deriving DecidableEq

/-- The `currentStep` state of `App.tsx`. -/
inductive Step
  | setup
  | session
deriving DecidableEq

/-- `Scenario` of `types.ts`. -/
structure Scenario where
  id : String
  title : String
  description : String
  icon : String
deriving DecidableEq

/-- Decoding outcome of one inbound base64 audio payload: either it decodes
to an audio buffer of some duration, or `decode`/`decodeAudioData` throws
for it. -/
inductive AudioData
  | wellFormed (duration : ℚ)
  | corrupt
deriving DecidableEq

/-- The parts of a `LiveServerMessage` that `handleLiveMessage` reads:
`serverContent.modelTurn.parts[0].inlineData.data` (audio),
`serverContent.inputTranscription`, `serverContent.outputTranscription`,
and `serverContent.turnComplete`. -/
structure ServerMessage where
  audio : Option AudioData
  inputTranscription : Option String
  outputTranscription : Option String
  turnComplete : Bool
deriving DecidableEq

/-- Outcome of the synchronous part of `startSession`: one of the two
precondition alerts, or the session-opening path was entered. -/
inductive StartResult
  | missingKey
  | missingScenario
  | proceeding
deriving DecidableEq

/-- The state of the `App` component: React state hooks plus the mutable
refs.  `inputContextOpen`/`outputContextOpen` are `none` while the
corresponding `AudioContext` ref is `null`, `some b` when it holds a
context (`b` = still open).  `sources` is `sourcesRef.current` (handle
ids), `stopped` records handles on which `stop()` was called,
`pendingOnEnded` records handles whose `ended` callback has not fired
yet, `pendingIdleTimers` counts scheduled debounce timeouts. -/
structure AppState where
  currentStep : Step
  selectedScenario : Option Scenario
  customScenario : String
  status : ConnectionStatus
  messages : List ChatMessage
  audioMode : AudioMode
  hasSession : Bool
  hasStream : Bool
  hasScriptProcessor : Bool
  inputContextOpen : Option Bool
  outputContextOpen : Option Bool
  nextStartTime : ℚ
  sources : List Nat
  nextSourceId : Nat
  stopped : List Nat
  pendingOnEnded : List Nat
  pendingIdleTimers : Nat
  currentInputTrans : String
  currentOutputTrans : String
  nextId : Nat
deriving DecidableEq

/-- The initial component state (`useState`/`useRef` initialisers of
`App.tsx`). -/
def initialState : AppState where
  currentStep := .setup
  selectedScenario := none
  customScenario := ""
  status := .disconnected
  messages := []
  audioMode := .idle
  hasSession := false
  hasStream := false
  hasScriptProcessor := false
  inputContextOpen := none
  outputContextOpen := none
  nextStartTime := 0
  sources := []
  nextSourceId := 0
  stopped := []
  pendingOnEnded := []
  pendingIdleTimers := 0
  currentInputTrans := ""
  currentOutputTrans := ""
  nextId := 0

/-- `updateLastMessage` of `App.tsx` (lines 242-259): if the last message
of the log is an uncommitted draft from the same speaker, replace its text
and flag in place (keeping its id); otherwise append a fresh message. -/
def updateLastMessage (role : Role) (text : String) (draft : Bool)
    (newId : Nat) (msgs : List ChatMessage) : List ChatMessage :=
  match msgs.getLast? with
  | some lastMsg =>
      if lastMsg.role = role ∧ lastMsg.isDraft then
        msgs.dropLast ++ [{ lastMsg with text := text, isDraft := draft }]
      else
        msgs ++ [{ id := newId, role := role, text := text, isDraft := draft }]
  | none => msgs ++ [{ id := newId, role := role, text := text, isDraft := draft }]

/-- The transcription-fragment handling of `handleLiveMessage` (lines
215-225): accumulate the fragment into the speaker's buffer and upsert the
trailing log message with the accumulated text (the spec's
`appendPartial`).  An input fragment also sets the indicator to
`listening`. -/
def appendFragment (role : Role) (fragment : String) (s : AppState) : AppState :=
  match role with
  | .user =>
      let buf := s.currentInputTrans ++ fragment
      { s with audioMode := .listening
               currentInputTrans := buf
               messages := updateLastMessage .user buf true s.nextId s.messages
               nextId := s.nextId + 1 }
  | .model =>
      let buf := s.currentOutputTrans ++ fragment
      { s with currentOutputTrans := buf
               messages := updateLastMessage .model buf true s.nextId s.messages
               nextId := s.nextId + 1 }

/-- The per-speaker commit performed on `turnComplete` (lines 228-238): if
the speaker's buffer is non-empty, write it as a non-draft message via
`updateLastMessage` and clear the buffer; otherwise do nothing (the spec's
`commit`). -/
def commit (role : Role) (s : AppState) : AppState :=
  match role with
  | .user =>
      if s.currentInputTrans = "" then s
      else
        { s with messages := updateLastMessage .user s.currentInputTrans false s.nextId s.messages
                 currentInputTrans := ""
                 nextId := s.nextId + 1 }
  | .model =>
      if s.currentOutputTrans = "" then s
      else
        { s with messages := updateLastMessage .model s.currentOutputTrans false s.nextId s.messages
                 currentOutputTrans := ""
                 nextId := s.nextId + 1 }

/-- The speaker's accumulation buffer
(`currentInputTransRef` / `currentOutputTransRef`). -/
def bufferOf (role : Role) (s : AppState) : String :=
  match role with
  | .user => s.currentInputTrans
  | .model => s.currentOutputTrans

/-- A transcript-affecting event: a transcription fragment for one
speaker, or a `turnComplete` marker. -/
inductive TEvent
  | fragment (role : Role) (text : String)
  | turnComplete
deriving DecidableEq

/-- Apply one transcript event the way `handleLiveMessage` does: fragments
go through `appendFragment`; `turnComplete` commits the user buffer and
then the model buffer. -/
def applyTEvent (e : TEvent) (s : AppState) : AppState :=
  match e with
  | .fragment role text => appendFragment role text s
  | .turnComplete => commit .model (commit .user s)

/-- Apply a sequence of transcript events in order. -/
def applyTEvents (evs : List TEvent) (s : AppState) : AppState :=
  match evs with
  | [] => s
  | e :: rest => applyTEvents rest (applyTEvent e s)

/-- Apply a sequence of transcription fragments (an interleaving of
`appendPartial` calls for the two speakers). -/
def applyFragments (evs : List (Role × String)) (s : AppState) : AppState :=
  match evs with
  | [] => s
  | (role, text) :: rest => applyFragments rest (appendFragment role text s)

/-- Parts 2 and 3 of `handleLiveMessage` (lines 214-238): transcription
fragments, then `turnComplete`. -/
def handleTranscriptions (msg : ServerMessage) (s : AppState) : AppState :=
  let s1 := match msg.inputTranscription with
    | some f => appendFragment .user f s
    | none => s
  let s2 := match msg.outputTranscription with
    | some f => appendFragment .model f s1
    | none => s1
  if msg.turnComplete then commit .model (commit .user s2) else s2

/-- `handleLiveMessage` (lines 177-239) at audio-clock time `now`
(`outputContextRef.current.currentTime`).  With an audio payload present,
the handler sets the indicator to `speaking`, advances `nextStartTime` to
`max nextStartTime now`, and then decodes.  A decode failure throws out of
the (async) handler, so the rest of the message is not processed.  On
success a source for the chunk is created, started at the advanced
`nextStartTime`, `nextStartTime` grows by the chunk duration, and the
source joins the live set (its `ended` callback becoming pending). -/
def handleLiveMessage (now : ℚ) (msg : ServerMessage) (s : AppState) : AppState :=
  match msg.audio with
  | none => handleTranscriptions msg s
  | some .corrupt =>
      { s with audioMode := .speaking
               nextStartTime := max s.nextStartTime now }
  | some (.wellFormed d) =>
      let startAt := max s.nextStartTime now
      handleTranscriptions msg
        { s with audioMode := .speaking
                 nextStartTime := startAt + d
                 sources := s.sources ++ [s.nextSourceId]
                 pendingOnEnded := s.pendingOnEnded ++ [s.nextSourceId]
                 nextSourceId := s.nextSourceId + 1 }

/-- A server message carrying only a well-formed audio chunk of duration
`d`. -/
def audioMsg (d : ℚ) : ServerMessage where
  audio := some (.wellFormed d)
  inputTranscription := none
  outputTranscription := none
  turnComplete := false

/-- The start time `source.start(...)` receives when a chunk arrives at
clock time `now` in state `s` (line 186/201: the freshly advanced
`nextStartTime`). -/
def startAtOf (now : ℚ) (s : AppState) : ℚ := max s.nextStartTime now

/-- The start times handed to `source.start` over a run of audio-only
messages; each list element of `chunks` is `(arrival clock time, chunk
duration)`. -/
def scheduleRun (chunks : List (ℚ × ℚ)) (s : AppState) : List ℚ :=
  match chunks with
  | [] => []
  | (now, d) :: rest =>
      startAtOf now s :: scheduleRun rest (handleLiveMessage now (audioMsg d) s)

/-- The states traversed by a run of audio-only messages (length one more
than `chunks`). -/
def stateTrace (chunks : List (ℚ × ℚ)) (s : AppState) : List AppState :=
  match chunks with
  | [] => [s]
  | (now, d) :: rest =>
      s :: stateTrace rest (handleLiveMessage now (audioMsg d) s)

/-- `endSession` of `App.tsx` (lines 262-294): close and drop the session,
stop and drop the microphone stream, disconnect the script processor (the
source guards this on both the processor and the input context being
present), `stop()` every live source and clear the live set (stopping a
source does not cancel its pending `ended` callback), close both audio
contexts, reset status/step/indicator and both transcription buffers. -/
def endSession (s : AppState) : AppState :=
  { s with hasSession := false
           hasStream := false
           hasScriptProcessor :=
             if s.hasScriptProcessor ∧ s.inputContextOpen.isSome then false
             else s.hasScriptProcessor
           stopped := s.stopped ++ s.sources
           sources := []
           inputContextOpen := s.inputContextOpen.map (fun _ => false)
           outputContextOpen := s.outputContextOpen.map (fun _ => false)
           status := .disconnected
           currentStep := .setup
           audioMode := .idle
           currentInputTrans := ""
           currentOutputTrans := "" }

/-- The JavaScript `String.prototype.trim()` used on the custom topic:
drop leading and trailing whitespace (written out on the character list so
that it evaluates). -/
def strTrim (s : String) : String :=
  ⟨((s.data.dropWhile Char.isWhitespace).reverse.dropWhile Char.isWhitespace).reverse⟩

/-- The synchronous part of `startSession` (lines 53-75), up to the first
`await`: the missing-credential alert (`!process.env.API_KEY`, so an empty
string fails too), the missing-scenario alert (a whitespace-only custom
topic does not count, and otherwise the selected scenario is required),
and on success the synchronous state changes `status := connecting`,
`currentStep := session`, `messages := []`, creation of both audio
contexts and `nextStartTime := 0`. -/
def startSessionSync (apiKey : String) (s : AppState) : AppState × StartResult :=
  if apiKey = "" then (s, .missingKey)
  else
    let finalScenario : Option Scenario :=
      if strTrim s.customScenario = "" then s.selectedScenario
      else some { id := "custom", title := "Custom Topic",
                  description := s.customScenario, icon := "✨" }
    match finalScenario with
    | none => (s, .missingScenario)
    | some _ =>
        ({ s with status := .connecting
                  currentStep := .session
                  messages := []
                  inputContextOpen := some true
                  outputContextOpen := some true
                  nextStartTime := 0 }, .proceeding)

/-- An asynchronous playback callback: the `ended` event of a source
(lines 205-211), or the 200ms debounce timeout it schedules (line 209). -/
inductive PEvent
  | onEnded (id : Nat)
  | idleTimer
deriving DecidableEq

/-- Fire one pending playback callback.  A source's `ended` handler
deletes the source from the live set and, when the set is then empty,
schedules the debounce timeout; the timeout sets the indicator to
`listening`. -/
def applyPEvent (e : PEvent) (s : AppState) : AppState :=
  match e with
  | .onEnded id =>
      if id ∈ s.pendingOnEnded then
        let sources := s.sources.erase id
        { s with sources := sources
                 pendingOnEnded := s.pendingOnEnded.erase id
                 pendingIdleTimers :=
                   if sources = [] then s.pendingIdleTimers + 1
                   else s.pendingIdleTimers }
      else s
  | .idleTimer =>
      if 0 < s.pendingIdleTimers then
        { s with audioMode := .listening
                 pendingIdleTimers := s.pendingIdleTimers - 1 }
      else s

/-- Fire a sequence of pending playback callbacks in order. -/
def applyPEvents (evs : List PEvent) (s : AppState) : AppState :=
  match evs with
  | [] => s
  | e :: rest => applyPEvents rest (applyPEvent e s)

/-- Modelled from the spec: the audio codec (`createBlob`, `decode`,
`decodeAudioData` of `utils/audioUtils`) is imported by `App.tsx` but its
file is not among the available sources.  Per spec section 4.1, `encode`
maps each float sample to a 16-bit signed little-endian integer via
`clamp(s,-1,1) * 32767`, rounding toward nearest.  `clamp1` is that
clamp. -/
def clamp1 (s : ℚ) : ℚ := max (-1) (min 1 s)

/-- Modelled from the spec: the 16-bit integer a sample is encoded to
(`clamp(s,-1,1) * 32767`, rounded toward nearest). -/
def encodeSample (s : ℚ) : ℤ := round (clamp1 s * 32767)

/-- Modelled from the spec: the two little-endian bytes (as naturals
below 256) of a sample's 16-bit two's-complement encoding. -/
def sampleToBytes (s : ℚ) : List ℕ :=
  let u := ((encodeSample s) % 65536).toNat
  [u % 256, u / 256]

/-- Modelled from the spec: `encode` concatenates the per-sample
little-endian byte pairs in order. -/
def encodeBytes : List ℚ → List ℕ
  | [] => []
  | s :: rest => sampleToBytes s ++ encodeBytes rest

/-- Modelled from the spec: reinterpret a little-endian byte pair as a
16-bit signed integer. -/
def int16OfLE (b0 b1 : ℕ) : ℤ :=
  let u := b0 + 256 * b1
  if 32768 ≤ u then (u : ℤ) - 65536 else (u : ℤ)

/-- Modelled from the spec: `bytesToAudioBuffer` reinterprets byte pairs
as little-endian 16-bit signed integers and rescales to float by dividing
by 32768 (channel count fixed at 1). -/
def decodeBytes : List ℕ → List ℚ
  | b0 :: b1 :: rest => ((int16OfLE b0 b1 : ℚ) / 32768) :: decodeBytes rest
  | _ => []

/-- A mid-session state with one live playing source (handle 0) whose
`ended` callback is pending. -/
def oneSourceState : AppState :=
  { initialState with currentStep := .session
                      status := .connected
                      hasSession := true
                      hasStream := true
                      hasScriptProcessor := true
                      inputContextOpen := some true
                      outputContextOpen := some true
                      audioMode := .speaking
                      sources := [0]
                      pendingOnEnded := [0]
                      nextSourceId := 1 }

/-! ### Helper lemmas about the message log -/

theorem updateLastMessage_concat (r : Role) (t : String) (p : Bool) (n : Nat)
    (l : List ChatMessage) (m : ChatMessage) :
    updateLastMessage r t p n (l ++ [m])
      = if m.role = r ∧ m.isDraft then l ++ [{ m with text := t, isDraft := p }]
        else (l ++ [m]) ++ [{ id := n, role := r, text := t, isDraft := p }] := by
  simp only [updateLastMessage, List.getLast?_concat, List.dropLast_concat]

theorem length_le_updateLastMessage (r : Role) (t : String) (p : Bool) (n : Nat)
    (msgs : List ChatMessage) :
    msgs.length ≤ (updateLastMessage r t p n msgs).length := by
  rcases List.eq_nil_or_concat msgs with h | ⟨l, m, h⟩
  · subst h; simp [updateLastMessage]
  · rw [List.concat_eq_append] at h
    subst h
    rw [updateLastMessage_concat]
    split <;> simp

theorem updateLastMessage_getElem?_lt (r : Role) (t : String) (p : Bool) (n : Nat)
    (msgs : List ChatMessage) (i : Nat) (h : i + 1 < msgs.length) :
    (updateLastMessage r t p n msgs)[i]? = msgs[i]? := by
  rcases List.eq_nil_or_concat msgs with hm | ⟨l, m, hm⟩
  · subst hm; simp at h
  · rw [List.concat_eq_append] at hm
    subst hm
    have hi : i < l.length := by
      have := h; simp at this; omega
    rw [updateLastMessage_concat]
    split
    · rw [List.getElem?_append_left hi, List.getElem?_append_left hi]
    · rw [List.getElem?_append_left
        (show i < (l ++ [m]).length by simp; omega)]

theorem updateLastMessage_preserves (r : Role) (t : String) (p : Bool) (n : Nat)
    (msgs : List ChatMessage) (i : Nat) (m : ChatMessage)
    (hm : msgs[i]? = some m) (hkeep : m.isDraft = false ∨ m.role ≠ r) :
    (updateLastMessage r t p n msgs)[i]? = some m := by
  have hi : i < msgs.length := (List.getElem?_eq_some.mp hm).1
  rcases Nat.lt_or_ge (i + 1) msgs.length with hlt | hge
  · rw [updateLastMessage_getElem?_lt r t p n msgs i hlt, hm]
  · -- `m` is the last message of the log
    rcases List.eq_nil_or_concat msgs with hnil | ⟨l, mlast, hcat⟩
    · subst hnil; simp at hi
    · rw [List.concat_eq_append] at hcat
      subst hcat
      have hil : i = l.length := by simp at hi hge; omega
      subst hil
      rw [List.getElem?_concat_length] at hm
      have hmm : mlast = m := by injection hm
      subst hmm
      rw [updateLastMessage_concat]
      have hcond : ¬ (mlast.role = r ∧ mlast.isDraft) := by
        rcases hkeep with h1 | h1
        · intro hc; rw [h1] at hc; exact Bool.false_ne_true hc.2
        · intro hc; exact h1 hc.1
      rw [if_neg hcond]
      rw [List.getElem?_append_left (by simp)]
      exact List.getElem?_concat_length l mlast

theorem appendFragment_messages (r : Role) (f : String) (s : AppState) :
    (appendFragment r f s).messages
      = updateLastMessage r (bufferOf r s ++ f) true s.nextId s.messages := by
  cases r <;> rfl

theorem commit_messages (r : Role) (s : AppState) :
    (commit r s).messages
      = if bufferOf r s = "" then s.messages
        else updateLastMessage r (bufferOf r s) false s.nextId s.messages := by
  cases r <;> simp only [commit, bufferOf] <;> split <;> rfl

theorem commit_getElem?_lt (r : Role) (s : AppState) (i : Nat)
    (h : i + 1 < s.messages.length) :
    (commit r s).messages[i]? = s.messages[i]? := by
  rw [commit_messages]
  split
  · rfl
  · exact updateLastMessage_getElem?_lt _ _ _ _ _ _ h

theorem length_le_commit (r : Role) (s : AppState) :
    s.messages.length ≤ (commit r s).messages.length := by
  rw [commit_messages]
  split
  · exact Nat.le_refl _
  · exact length_le_updateLastMessage _ _ _ _ _

theorem commit_preserves (r : Role) (s : AppState) (i : Nat) (m : ChatMessage)
    (hm : s.messages[i]? = some m) (hkeep : m.isDraft = false) :
    (commit r s).messages[i]? = some m := by
  rw [commit_messages]
  split
  · exact hm
  · exact updateLastMessage_preserves _ _ _ _ _ _ _ hm (Or.inl hkeep)

theorem applyTEvent_getElem?_lt (e : TEvent) (s : AppState) (i : Nat)
    (h : i + 1 < s.messages.length) :
    (applyTEvent e s).messages[i]? = s.messages[i]? := by
  cases e with
  | fragment r f =>
      rw [applyTEvent, appendFragment_messages]
      exact updateLastMessage_getElem?_lt _ _ _ _ _ _ h
  | turnComplete =>
      rw [applyTEvent]
      have h1 : i + 1 < (commit .user s).messages.length :=
        Nat.lt_of_lt_of_le h (length_le_commit _ _)
      rw [commit_getElem?_lt _ _ _ h1, commit_getElem?_lt _ _ _ h]

theorem appendFragment_preserves_final (r : Role) (f : String) (s : AppState)
    (i : Nat) (m : ChatMessage)
    (hm : s.messages[i]? = some m) (hkeep : m.isDraft = false) :
    (appendFragment r f s).messages[i]? = some m := by
  rw [appendFragment_messages]
  exact updateLastMessage_preserves _ _ _ _ _ _ _ hm (Or.inl hkeep)

theorem applyFragments_preserves_final (evs : List (Role × String)) (s : AppState)
    (i : Nat) (m : ChatMessage)
    (hm : s.messages[i]? = some m) (hkeep : m.isDraft = false) :
    (applyFragments evs s).messages[i]? = some m := by
  induction evs generalizing s with
  | nil => exact hm
  | cons e rest ih =>
      obtain ⟨r, f⟩ := e
      exact ih (appendFragment r f s)
        (appendFragment_preserves_final r f s i m hm hkeep)

/-! ### C2: the trailing-draft invariant of the message log -/

/-- C2, counterexample.  The claim — at most one uncommitted (partial)
message per speaker ever exists in the log, and every commit finalises
that message in place — fails on the code: interleaving
`appendPartial('user','a')`, `appendPartial('model','b')`,
`appendPartial('user','c')` leaves two uncommitted user messages in the
log, and running `appendPartial('user','a')`, `appendPartial('model','b')`
then a `turnComplete` commit leaves a log of four messages in which both
original drafts are still uncommitted (the commits appended new final
messages instead of finalising in place). -/
theorem C2_counterexample :
    ((applyTEvents
        [.fragment .user "a", .fragment .model "b", .fragment .user "c"]
        initialState).messages.filter
          (fun m => m.role == Role.user && m.isDraft)).length = 2
    ∧ (applyTEvents
        [.fragment .user "a", .fragment .model "b", .turnComplete]
        initialState).messages.length = 4
    ∧ ((applyTEvents
        [.fragment .user "a", .fragment .model "b", .turnComplete]
        initialState).messages.filter (fun m => m.isDraft)).length = 2 := by
  decide

/-- C2, amended: every transcript event (fragment or commit) leaves all
log entries except the trailing one unchanged and in place, and a commit
for a speaker whose uncommitted draft is the trailing message of the log
does finalise it in place (freezing the accumulated buffer text) without
reordering.  However — as the counterexample shows — when the two
speakers' fragments interleave without an intervening commit, a speaker
can accumulate more than one uncommitted draft, and a commit for a
speaker whose draft is not trailing appends a new final message instead of
finalising in place. -/
theorem C2_trailing_draft (s : AppState) (e : TEvent) (i : Nat)
    (m : ChatMessage) (r : Role) :
    (i + 1 < s.messages.length → (applyTEvent e s).messages[i]? = s.messages[i]?)
    ∧ (s.messages.getLast? = some m → m.role = r → m.isDraft = true →
        bufferOf r s ≠ "" →
        (commit r s).messages
          = s.messages.dropLast ++ [{ m with text := bufferOf r s, isDraft := false }]) := by
  constructor
  · exact applyTEvent_getElem?_lt e s i
  · intro hlast hrole hdraft hbuf
    rcases List.eq_nil_or_concat s.messages with hnil | ⟨l, mlast, hcat⟩
    · rw [hnil] at hlast; simp at hlast
    · rw [List.concat_eq_append] at hcat
      have hmm : mlast = m := by
        rw [hcat, List.getLast?_concat] at hlast; injection hlast
      subst hmm
      rw [commit_messages, if_neg hbuf, hcat, updateLastMessage_concat,
        if_pos ⟨hrole, hdraft⟩, List.dropLast_concat]

/-- The log state after a user fragment "He" and a model fragment "x":
two trailing drafts, the model's one last. -/
def twoDraftState : AppState :=
  applyTEvents [.fragment .user "He", .fragment .model "x"] initialState

/-- C2, witness: the amended theorem applied at a concrete state. -/
theorem C2_trailing_draft_witness :
    (applyTEvent .turnComplete twoDraftState).messages[0]?
      = twoDraftState.messages[0]?
    ∧ (commit .model twoDraftState).messages
      = twoDraftState.messages.dropLast
        ++ [{ id := 1, role := .model, text := "x", isDraft := false }] :=
  ⟨(C2_trailing_draft twoDraftState .turnComplete 0
      { id := 1, role := .model, text := "x", isDraft := true } .model).1
      (by decide),
   (C2_trailing_draft twoDraftState .turnComplete 0
      { id := 1, role := .model, text := "x", isDraft := true } .model).2
      (by decide) rfl rfl (by decide)⟩

/-! ### C8: commits are idempotent -/

/-- C8: `commit(speaker)` is idempotent — a second commit with no
intervening fragment for that speaker changes nothing (for either speaker,
from any state): the first commit clears the speaker's buffer, and a
commit with an empty buffer is a no-op. -/
theorem C8_commit_idempotent (r : Role) (s : AppState) :
    commit r (commit r s) = commit r s := by
  cases r with
  | user =>
      by_cases h : s.currentInputTrans = "" <;> simp [commit, h]
  | model =>
      by_cases h : s.currentOutputTrans = "" <;> simp [commit, h]

/-! ### C9: fragments never cross speakers, finals never move -/

/-- C9: for every interleaving of `appendPartial('user',...)` and
`appendPartial('model',...)` calls, every already-final (committed)
message stays at its position unchanged, and a fragment for one speaker
never merges into a message of the other speaker (any such message —
in particular the other speaker's trailing one — is left exactly in
place). -/
theorem C9_speaker_isolation (evs : List (Role × String)) (s : AppState)
    (i : Nat) (m : ChatMessage) (r : Role) (t : String)
    (hm : s.messages[i]? = some m) :
    (m.isDraft = false → (applyFragments evs s).messages[i]? = some m)
    ∧ (m.role ≠ r → (appendFragment r t s).messages[i]? = some m) := by
  constructor
  · intro hfin
    exact applyFragments_preserves_final evs s i m hm hfin
  · intro hrole
    rw [appendFragment_messages]
    exact updateLastMessage_preserves _ _ _ _ _ _ _ hm (Or.inr hrole)

/-- The log state holding the single committed message
`{role:'user', text:'He', final}`. -/
def oneFinalState : AppState :=
  applyTEvents [.fragment .user "He", .turnComplete] initialState

/-- C9, witness: the theorem applied at a concrete committed message with
concrete interleaved fragments. -/
theorem C9_speaker_isolation_witness :
    (applyFragments [(.model, "a"), (.user, "b")] oneFinalState).messages[0]?
      = some { id := 0, role := .user, text := "He", isDraft := false }
    ∧ (appendFragment .model "z" oneFinalState).messages[0]?
      = some { id := 0, role := .user, text := "He", isDraft := false } :=
  ⟨(C9_speaker_isolation [(.model, "a"), (.user, "b")] oneFinalState 0
      { id := 0, role := .user, text := "He", isDraft := false } .model "z"
      (by decide)).1 rfl,
   (C9_speaker_isolation [(.model, "a"), (.user, "b")] oneFinalState 0
      { id := 0, role := .user, text := "He", isDraft := false } .model "z"
      (by decide)).2 (by decide)⟩

/-! ### Helper lemmas about the playback scheduler -/

theorem handleAudio_nextStartTime (now d : ℚ) (s : AppState) :
    (handleLiveMessage now (audioMsg d) s).nextStartTime
      = max s.nextStartTime now + d := rfl

theorem stateTrace_head (chunks : List (ℚ × ℚ)) (s : AppState) :
    (stateTrace chunks s)[0]? = some s := by
  cases chunks with
  | nil => rfl
  | cons c rest => obtain ⟨now, d⟩ := c; simp [stateTrace]

theorem scheduleRun_head_ge (chunks : List (ℚ × ℚ)) (s : AppState) (b : ℚ)
    (hb : (scheduleRun chunks s)[0]? = some b) : s.nextStartTime ≤ b := by
  cases chunks with
  | nil => simp [scheduleRun] at hb
  | cons c rest =>
      obtain ⟨now, d⟩ := c
      have : startAtOf now s = b := by
        rw [scheduleRun] at hb
        simpa using hb
      rw [← this]
      exact le_max_left _ _

/-! ### C1: back-to-back playback scheduling -/

/-- C1: over any run of scheduled audio chunks (each arriving at some
audio-clock time with some duration), the chunk at position `i` starts at
`max nextStartTime audioClockNow` for the state it is scheduled in,
`nextStartTime` is then advanced by exactly that chunk's duration, and
consequently the next chunk's start time satisfies
`startTime(i+1) ≥ startTime(i) + duration(i)`: chunks play back-to-back in
arrival order with no overlap. -/
theorem C1_back_to_back (chunks : List (ℚ × ℚ)) (s0 : AppState) (i : Nat)
    (now d a b : ℚ) (st : AppState)
    (hc : chunks[i]? = some (now, d))
    (hst : (stateTrace chunks s0)[i]? = some st)
    (ha : (scheduleRun chunks s0)[i]? = some a)
    (hb : (scheduleRun chunks s0)[i + 1]? = some b) :
    a = max st.nextStartTime now
    ∧ (stateTrace chunks s0)[i + 1]? = some (handleLiveMessage now (audioMsg d) st)
    ∧ (handleLiveMessage now (audioMsg d) st).nextStartTime = a + d
    ∧ a + d ≤ b := by
  induction chunks generalizing s0 i with
  | nil => simp [scheduleRun] at ha
  | cons c rest ih =>
      obtain ⟨cn, cd⟩ := c
      cases i with
      | zero =>
          have hcc : cn = now ∧ cd = d := by
            simpa [Prod.ext_iff] using hc
          obtain ⟨h1, h2⟩ := hcc
          subst h1; subst h2
          have hss : s0 = st := by
            rw [stateTrace] at hst; simpa using hst
          subst hss
          have haa : startAtOf cn s0 = a := by
            rw [scheduleRun] at ha; simpa using ha
          have hb0 : (scheduleRun rest (handleLiveMessage cn (audioMsg cd) s0))[0]?
              = some b := by
            rw [scheduleRun] at hb; simpa using hb
          refine ⟨haa.symm, ?_, ?_, ?_⟩
          · rw [stateTrace]
            simpa using stateTrace_head rest (handleLiveMessage cn (audioMsg cd) s0)
          · rw [handleAudio_nextStartTime, ← haa]; rfl
          · have := scheduleRun_head_ge rest (handleLiveMessage cn (audioMsg cd) s0) b hb0
            rw [handleAudio_nextStartTime] at this
            rw [← haa]
            exact this
      | succ j =>
          have hc' : rest[j]? = some (now, d) := by simpa [List.getElem?_cons_succ] using hc
          have hst' : (stateTrace rest (handleLiveMessage cn (audioMsg cd) s0))[j]?
              = some st := by
            rw [stateTrace] at hst; simpa using hst
          have ha' : (scheduleRun rest (handleLiveMessage cn (audioMsg cd) s0))[j]?
              = some a := by
            rw [scheduleRun] at ha; simpa using ha
          have hb' : (scheduleRun rest (handleLiveMessage cn (audioMsg cd) s0))[j + 1]?
              = some b := by
            rw [scheduleRun] at hb; simpa using hb
          have := ih (handleLiveMessage cn (audioMsg cd) s0) j hc' hst' ha' hb'
          refine ⟨this.1, ?_, this.2.2.1, this.2.2.2⟩
          rw [stateTrace]
          simpa using this.2.1

/-- C1, witness: a concrete two-chunk run (durations 2 and 3, arrivals at
clock times 0 and 2) starting from the fresh session state. -/
theorem C1_back_to_back_witness :
    (0 : ℚ) = max initialState.nextStartTime 0
    ∧ (stateTrace [((0 : ℚ), (2 : ℚ)), (2, 3)] initialState)[1]?
        = some (handleLiveMessage 0 (audioMsg 2) initialState)
    ∧ (handleLiveMessage 0 (audioMsg 2) initialState).nextStartTime = 0 + 2
    ∧ (0 : ℚ) + 2 ≤ 2 :=
  C1_back_to_back [((0 : ℚ), (2 : ℚ)), (2, 3)] initialState 0 0 2 0 2 initialState
    rfl rfl
    (by simp [scheduleRun, startAtOf, initialState])
    (by simp [scheduleRun, startAtOf, handleLiveMessage, audioMsg,
          handleTranscriptions, initialState])

/-! ### C3: endSession is idempotent and total -/

/-- C3: `endSession` is a total function (it cannot throw), it is
idempotent — running it twice in succession, or running it on a state
where no session was ever started, gives exactly the state one run gives —
and afterwards the lifecycle status is `disconnected`, the set of live
playback sources is empty, and both per-speaker transcription buffers are
empty. -/
theorem C3_end_idempotent (s : AppState) :
    endSession (endSession s) = endSession s
    ∧ (endSession s).status = .disconnected
    ∧ (endSession s).sources = []
    ∧ (endSession s).currentInputTrans = ""
    ∧ (endSession s).currentOutputTrans = "" := by
  refine ⟨?_, rfl, rfl, rfl, rfl⟩
  cases hsp : s.hasScriptProcessor <;> cases hic : s.inputContextOpen <;>
    simp [endSession, hsp, hic]

/-! ### C7: start() preconditions -/

/-- C7: the synchronous prefix of `startSession` checks its preconditions
before any state change: with a missing (empty) credential it stops at the
missing-key alert and returns the state untouched; with a non-empty
credential but an empty topic (no selected scenario and a whitespace-only
custom text) it stops at the missing-scenario alert and returns the state
untouched — so the lifecycle status stays whatever it was (`disconnected`
in the claim's scenario) and no device, context, or connection is
allocated. -/
theorem C7_start_preconditions (k : String) (s : AppState) :
    (k = "" → startSessionSync k s = (s, .missingKey))
    ∧ (k ≠ "" → strTrim s.customScenario = "" → s.selectedScenario = none →
        startSessionSync k s = (s, .missingScenario)) := by
  constructor
  · intro h
    simp [startSessionSync, h]
  · intro hk ht hs
    simp [startSessionSync, hk, ht, hs]

/-- C7, witness: both precondition failures at the fresh component state
(no scenario selected, empty custom topic). -/
theorem C7_start_preconditions_witness :
    startSessionSync "" initialState = (initialState, .missingKey)
    ∧ startSessionSync "key" initialState = (initialState, .missingScenario) :=
  ⟨(C7_start_preconditions "" initialState).1 rfl,
   (C7_start_preconditions "key" initialState).2 (by decide) rfl rfl⟩

/-! ### C10: endSession leaves the log untouched -/

theorem length_le_handleTranscriptions (msg : ServerMessage) (s : AppState) :
    s.messages.length ≤ (handleTranscriptions msg s).messages.length := by
  rw [handleTranscriptions]
  have h1 : ∀ t : AppState, ∀ o : Option String,
      t.messages.length
        ≤ (match o with | some f => appendFragment .user f t | none => t).messages.length := by
    intro t o
    cases o with
    | none => exact Nat.le_refl _
    | some f =>
        rw [appendFragment_messages]
        exact length_le_updateLastMessage _ _ _ _ _
  have h2 : ∀ t : AppState, ∀ o : Option String,
      t.messages.length
        ≤ (match o with | some f => appendFragment .model f t | none => t).messages.length := by
    intro t o
    cases o with
    | none => exact Nat.le_refl _
    | some f =>
        rw [appendFragment_messages]
        exact length_le_updateLastMessage _ _ _ _ _
  have h3 : ∀ t : AppState,
      t.messages.length ≤ (if msg.turnComplete
        then commit .model (commit .user t) else t).messages.length := by
    intro t
    split
    · exact Nat.le_trans (length_le_commit .user t) (length_le_commit .model _)
    · exact Nat.le_refl _
  exact Nat.le_trans (h1 s msg.inputTranscription)
    (Nat.le_trans (h2 _ msg.outputTranscription) (h3 _))

/-- C10: `endSession` leaves the chat-message log exactly as it was (every
message still present, unchanged, in the same order); the log is emptied
only by the next `startSession` run that passes its preconditions; and no
inbound message handling or playback callback ever removes messages from
the log (handling a server message can only grow the log, and playback
callbacks never touch it). -/
theorem C10_end_preserves_log (s : AppState) (k : String) (now : ℚ)
    (msg : ServerMessage) (e : PEvent) :
    (endSession s).messages = s.messages
    ∧ ((startSessionSync k s).2 = .proceeding → (startSessionSync k s).1.messages = [])
    ∧ s.messages.length ≤ (handleLiveMessage now msg s).messages.length
    ∧ (applyPEvent e s).messages = s.messages := by
  refine ⟨rfl, ?_, ?_, ?_⟩
  · intro hp
    by_cases hk : k = ""
    · simp [startSessionSync, hk] at hp
    · by_cases ht : strTrim s.customScenario = ""
      · cases hs : s.selectedScenario with
        | none => simp [startSessionSync, hk, ht, hs] at hp
        | some sc => simp [startSessionSync, hk, ht, hs]
      · simp [startSessionSync, hk, ht]
  · cases hma : msg.audio with
    | none =>
        simp only [handleLiveMessage, hma]
        exact length_le_handleTranscriptions msg s
    | some a =>
        cases a with
        | corrupt => simp only [handleLiveMessage, hma]; exact Nat.le_refl _
        | wellFormed d =>
            simp only [handleLiveMessage, hma]
            refine Nat.le_trans (Nat.le_of_eq rfl) (length_le_handleTranscriptions msg
              { s with audioMode := AudioMode.speaking
                       nextStartTime := max s.nextStartTime now + d
                       sources := s.sources ++ [s.nextSourceId]
                       pendingOnEnded := s.pendingOnEnded ++ [s.nextSourceId]
                       nextSourceId := s.nextSourceId + 1 })
  · cases e <;> rw [applyPEvent] <;> split <;> rfl

/-- A setup state with a predefined scenario selected (so that
`startSession` passes its preconditions). -/
def coffeeState : AppState :=
  { initialState with
      selectedScenario := some
        { id := "coffee", title := "Ordering Coffee",
          description := "Cafe Order", icon := "☕" }
      messages := [{ id := 7, role := .model, text := "old", isDraft := false }] }

/-- C10, witness: the theorem applied at a state carrying an old message,
with a successful restart emptying the log. -/
theorem C10_end_preserves_log_witness :
    (endSession coffeeState).messages = coffeeState.messages
    ∧ (startSessionSync "key" coffeeState).1.messages = []
    ∧ coffeeState.messages.length
        ≤ (handleLiveMessage 0 (audioMsg 2) coffeeState).messages.length
    ∧ (applyPEvent .idleTimer coffeeState).messages = coffeeState.messages := by
  have h := C10_end_preserves_log coffeeState "key" 0 (audioMsg 2) .idleTimer
  exact ⟨h.1, h.2.1 (by decide), h.2.2.1, h.2.2.2⟩

/-! ### C4: decode failures are isolated to their payload -/

/-- A server message whose audio payload fails to decode, with arbitrary
accompanying fields. -/
def corruptMsg (it ot : Option String) (tc : Bool) : ServerMessage where
  audio := some .corrupt
  inputTranscription := it
  outputTranscription := ot
  turnComplete := tc

/-- C4, counterexample.  The claim says the next well-formed payload is
scheduled against the *unchanged* playback state, but the handler advances
`nextStartTime` to the current audio clock *before* decoding (line 186
precedes line 188), so a failing payload does change the playback state:
from the one-source session state (`nextStartTime = 0`) a corrupt payload
arriving at clock time 5 leaves `nextStartTime = 5`. -/
theorem C4_counterexample :
    (handleLiveMessage 5 (corruptMsg none none false) oneSourceState).nextStartTime
      ≠ oneSourceState.nextStartTime := by
  have h5 : (handleLiveMessage 5 (corruptMsg none none false) oneSourceState).nextStartTime
      = max 0 5 := rfl
  rw [h5]
  norm_num [oneSourceState, initialState]

/-- C4, amended: a decode failure on one inbound payload is isolated to
that payload — the handler aborts for that message, so the transcript log
and the live playback sources are untouched; and although `nextStartTime`
may have been advanced to the current audio clock before the failure,
provided the audio clock is monotone the next well-formed payload is
scheduled at exactly the same start time, and leaves exactly the same
`nextStartTime`, as if the failed message had never arrived. -/
theorem C4_decode_failure_isolated (s : AppState) (now₁ now₂ d : ℚ)
    (it ot : Option String) (tc : Bool) (hmono : now₁ ≤ now₂) :
    (handleLiveMessage now₁ (corruptMsg it ot tc) s).messages = s.messages
    ∧ (handleLiveMessage now₁ (corruptMsg it ot tc) s).sources = s.sources
    ∧ startAtOf now₂ (handleLiveMessage now₁ (corruptMsg it ot tc) s)
        = startAtOf now₂ s
    ∧ (handleLiveMessage now₂ (audioMsg d)
          (handleLiveMessage now₁ (corruptMsg it ot tc) s)).nextStartTime
        = (handleLiveMessage now₂ (audioMsg d) s).nextStartTime := by
  have hmax : max (max s.nextStartTime now₁) now₂ = max s.nextStartTime now₂ := by
    rw [max_assoc, max_eq_right hmono]
  refine ⟨rfl, rfl, ?_, ?_⟩
  · show max (max s.nextStartTime now₁) now₂ = max s.nextStartTime now₂
    exact hmax
  · show max (max s.nextStartTime now₁) now₂ + d = max s.nextStartTime now₂ + d
    rw [hmax]

/-- C4, witness: the amended theorem at the one-source session state, with
the corrupt payload arriving at clock time 3 and the next well-formed
chunk (duration 2) at clock time 5. -/
theorem C4_decode_failure_isolated_witness :
    (handleLiveMessage 3 (corruptMsg none none false) oneSourceState).messages
        = oneSourceState.messages
    ∧ (handleLiveMessage 3 (corruptMsg none none false) oneSourceState).sources
        = oneSourceState.sources
    ∧ startAtOf 5 (handleLiveMessage 3 (corruptMsg none none false) oneSourceState)
        = startAtOf 5 oneSourceState
    ∧ (handleLiveMessage 5 (audioMsg 2)
          (handleLiveMessage 3 (corruptMsg none none false) oneSourceState)).nextStartTime
        = (handleLiveMessage 5 (audioMsg 2) oneSourceState).nextStartTime :=
  C4_decode_failure_isolated oneSourceState 3 5 2 none none false (by norm_num)

/-! ### C6: teardown halts playback, but stopped sources still call back -/

theorem applyPEvent_sources_nil (e : PEvent) (t : AppState) (h : t.sources = []) :
    (applyPEvent e t).sources = [] := by
  cases e with
  | onEnded id =>
      rw [applyPEvent]
      split
      · simp [h]
      · exact h
  | idleTimer =>
      rw [applyPEvent]
      split
      · exact h
      · exact h

theorem applyPEvent_stopped (e : PEvent) (t : AppState) :
    (applyPEvent e t).stopped = t.stopped := by
  cases e <;> rw [applyPEvent] <;> split <;> rfl

/-- C6, counterexample.  The claim says no playback-completion callback
fires after teardown and the indicator cannot leave `idle`; but `stop()`
makes a source's `ended` event fire (Web Audio semantics), the handler is
still attached, and `endSession` does not cancel the pending callback: in
the torn-down state the source's `ended` callback finds the live set
empty and schedules the debounce timeout, which then sets the indicator to
`listening`. -/
theorem C6_counterexample :
    (endSession oneSourceState).pendingOnEnded = [0]
    ∧ (endSession oneSourceState).audioMode = .idle
    ∧ (applyPEvents [.onEnded 0, .idleTimer] (endSession oneSourceState)).audioMode
        = .listening := by
  decide

/-- C6, amended: after `endSession` every live playback source has been
halted (`stop()` was issued on it), the live-source set is empty and stays
empty under every sequence of later playback callbacks, and the indicator
is set to `idle` by the teardown itself; however the completion callbacks
of the stopped sources are not cancelled (their `ended` events remain
pending), and — per the counterexample — such a post-teardown callback can
set the indicator to `listening`. -/
theorem C6_stop_all (s : AppState) (evs : List PEvent) :
    (∀ id ∈ s.sources, id ∈ (endSession s).stopped)
    ∧ (endSession s).sources = []
    ∧ (endSession s).audioMode = .idle
    ∧ (applyPEvents evs (endSession s)).sources = []
    ∧ (applyPEvents evs (endSession s)).stopped = (endSession s).stopped
    ∧ (endSession s).pendingOnEnded = s.pendingOnEnded := by
  have hnil : ∀ evs' : List PEvent, ∀ t : AppState, t.sources = [] →
      (applyPEvents evs' t).sources = [] ∧ (applyPEvents evs' t).stopped = t.stopped := by
    intro evs'
    induction evs' with
    | nil => exact fun t h => ⟨h, rfl⟩
    | cons e rest ih =>
        intro t h
        have := ih (applyPEvent e t) (applyPEvent_sources_nil e t h)
        exact ⟨this.1, this.2.trans (applyPEvent_stopped e t)⟩
  refine ⟨?_, rfl, rfl, (hnil evs _ rfl).1, (hnil evs _ rfl).2, rfl⟩
  intro id hid
  show id ∈ s.stopped ++ s.sources
  exact List.mem_append_right _ hid

/-- C6, witness: the amended theorem at the one-source session state with
its `ended` callback firing after teardown. -/
theorem C6_stop_all_witness :
    0 ∈ (endSession oneSourceState).stopped
    ∧ (endSession oneSourceState).sources = []
    ∧ (endSession oneSourceState).audioMode = .idle
    ∧ (applyPEvents [.onEnded 0] (endSession oneSourceState)).sources = []
    ∧ (applyPEvents [.onEnded 0] (endSession oneSourceState)).stopped
        = (endSession oneSourceState).stopped
    ∧ (endSession oneSourceState).pendingOnEnded = oneSourceState.pendingOnEnded := by
  have h := C6_stop_all oneSourceState [.onEnded 0]
  exact ⟨h.1 0 (by decide), h.2.1, h.2.2.1, h.2.2.2.1, h.2.2.2.2.1, h.2.2.2.2.2⟩

/-! ### C5: the audio codec round-trip (modelled from the spec) -/

theorem clamp1_of_mem (x : ℚ) (h1 : -1 ≤ x) (h2 : x ≤ 1) : clamp1 x = x := by
  unfold clamp1
  rw [min_eq_right h2, max_eq_right h1]

theorem encodeSample_range (x : ℚ) (h1 : -1 ≤ x) (h2 : x ≤ 1) :
    -32767 ≤ encodeSample x ∧ encodeSample x ≤ 32767 := by
  unfold encodeSample
  rw [clamp1_of_mem x h1 h2, round_eq]
  constructor
  · rw [Int.le_floor]
    push_cast
    linarith
  · have hlt : (x * 32767 + 1 / 2) < ((32768 : ℤ) : ℚ) := by push_cast; linarith
    have := Int.floor_lt.mpr hlt
    omega

theorem int16_roundtrip (v : ℤ) (h1 : -32768 ≤ v) (h2 : v ≤ 32767) :
    int16OfLE ((v % 65536).toNat % 256) ((v % 65536).toNat / 256) = v := by
  simp only [int16OfLE]
  rw [Nat.mod_add_div]
  split_ifs <;> omega

theorem decode_encode_sample (x : ℚ) (h1 : -1 ≤ x) (h2 : x ≤ 1) :
    |(encodeSample x : ℚ) / 32768 - x| ≤ 3 / 65536 := by
  have hr : |x * 32767 - (encodeSample x : ℚ)| ≤ 1 / 2 := by
    have := abs_sub_round (x * 32767)
    simpa [encodeSample, clamp1_of_mem x h1 h2] using this
  have hx : |x| ≤ 1 := abs_le.mpr ⟨h1, h2⟩
  have key : |(encodeSample x : ℚ) - 32768 * x| ≤ 3 / 2 := by
    have hsplit : (encodeSample x : ℚ) - 32768 * x
        = -(x * 32767 - (encodeSample x : ℚ)) + (-x) := by ring
    rw [hsplit]
    calc |(-(x * 32767 - (encodeSample x : ℚ))) + (-x)|
        ≤ |(-(x * 32767 - (encodeSample x : ℚ)))| + |(-x)| := abs_add _ _
      _ ≤ 1 / 2 + 1 := by rw [abs_neg, abs_neg]; exact add_le_add hr hx
      _ = 3 / 2 := by norm_num
  have hq : (encodeSample x : ℚ) / 32768 - x
      = ((encodeSample x : ℚ) - 32768 * x) / 32768 := by ring
  rw [hq, abs_div, show |(32768 : ℚ)| = 32768 by norm_num]
  calc |(encodeSample x : ℚ) - 32768 * x| / 32768
      ≤ (3 / 2) / 32768 := (div_le_div_iff_of_pos_right (by norm_num)).mpr key
    _ = 3 / 65536 := by norm_num

theorem decodeBytes_sample_cons (x : ℚ) (h1 : -1 ≤ x) (h2 : x ≤ 1) (tail : List ℕ) :
    decodeBytes (sampleToBytes x ++ tail)
      = ((encodeSample x : ℚ) / 32768) :: decodeBytes tail := by
  have hrange := encodeSample_range x h1 h2
  have hrt := int16_roundtrip (encodeSample x) (by omega) hrange.2
  simp only [sampleToBytes, List.cons_append, List.nil_append, decodeBytes]
  rw [hrt]
  rfl

/-- C5, counterexample.  The claim's per-sample error bound `1/32768` is
too tight for the codec as the spec defines it (encode with factor 32767,
decode with factor 32768): the in-range sample `-163832/163835`
(≈ -0.99998) encodes to the 16-bit value -32766, decodes to
`-16383/16384`, and the reconstruction error exceeds `1/32768` (it is
≈ 1.4/32768). -/
theorem C5_counterexample :
    ((-1 : ℚ) ≤ -163832 / 163835 ∧ (-163832 / 163835 : ℚ) ≤ 1)
    ∧ decodeBytes (encodeBytes [(-163832 / 163835 : ℚ)]) = [(-16383 / 16384 : ℚ)]
    ∧ ¬ |(-16383 / 16384 : ℚ) - (-163832 / 163835)| ≤ 1 / 32768 := by
  refine ⟨by norm_num, ?_, ?_⟩
  · have henc : encodeSample (-163832 / 163835 : ℚ) = -32766 := by
      unfold encodeSample
      rw [clamp1_of_mem _ (by norm_num) (by norm_num),
        show ((-163832 : ℚ) / 163835 * 32767) = -163832 / 5 by norm_num,
        round_eq,
        show ((-163832 : ℚ) / 5 + 1 / 2) = -327659 / 10 by norm_num]
      norm_num
    calc decodeBytes (encodeBytes [(-163832 / 163835 : ℚ)])
        = decodeBytes (sampleToBytes (-163832 / 163835 : ℚ) ++ encodeBytes []) := rfl
      _ = ((encodeSample (-163832 / 163835 : ℚ) : ℚ) / 32768)
            :: decodeBytes (encodeBytes []) :=
          decodeBytes_sample_cons _ (by norm_num) (by norm_num) _
      _ = [(-16383 / 16384 : ℚ)] := by
          rw [henc, show decodeBytes (encodeBytes []) = [] from rfl]
          norm_num
  · rw [abs_of_pos (by norm_num)]
    norm_num

/-- C5, amended: for every sample sequence with values in `[-1,1]`,
decoding the encoding reconstructs a sequence of the same length whose
per-sample error is at most `3/65536` (= 1.5/32768, the bound the
asymmetric 32767-encode / 32768-decode scaling actually guarantees; the
claim's `1/32768` is exceeded, see the counterexample). -/
theorem C5_roundtrip (samples : List ℚ) (h : ∀ x ∈ samples, -1 ≤ x ∧ x ≤ 1) :
    (decodeBytes (encodeBytes samples)).length = samples.length
    ∧ ∀ (i : Nat) (x y : ℚ), samples[i]? = some x →
        (decodeBytes (encodeBytes samples))[i]? = some y →
        |y - x| ≤ 3 / 65536 := by
  induction samples with
  | nil =>
      refine ⟨rfl, ?_⟩
      intro i x y hx hy
      simp at hx
  | cons a rest ih =>
      have ha := h a (List.mem_cons_self a rest)
      have hrest := ih (fun x hx => h x (List.mem_cons_of_mem a hx))
      have hkey : decodeBytes (encodeBytes (a :: rest))
          = ((encodeSample a : ℚ) / 32768) :: decodeBytes (encodeBytes rest) := by
        rw [encodeBytes]
        exact decodeBytes_sample_cons a ha.1 ha.2 (encodeBytes rest)
      constructor
      · rw [hkey]
        simp [hrest.1]
      · intro i x y hx hy
        rw [hkey] at hy
        cases i with
        | zero =>
            have hxa : a = x := by simpa using hx
            have hya : (encodeSample a : ℚ) / 32768 = y := by simpa using hy
            rw [← hxa, ← hya]
            exact decode_encode_sample a ha.1 ha.2
        | succ j =>
            have hx' : rest[j]? = some x := by simpa using hx
            have hy' : (decodeBytes (encodeBytes rest))[j]? = some y := by simpa using hy
            exact hrest.2 j x y hx' hy'

/-- C5, witness: the amended round-trip theorem at the one-sample sequence
`[0]`. -/
theorem C5_roundtrip_witness :
    (decodeBytes (encodeBytes [(0 : ℚ)])).length = 1
    ∧ |(encodeSample 0 : ℚ) / 32768 - 0| ≤ 3 / 65536 := by
  have h := C5_roundtrip [(0 : ℚ)]
    (by intro x hx; rw [List.mem_singleton] at hx; subst hx; norm_num)
  refine ⟨h.1, h.2 0 0 ((encodeSample 0 : ℚ) / 32768) rfl ?_⟩
  rw [show encodeBytes [(0 : ℚ)] = sampleToBytes 0 ++ encodeBytes [] from rfl,
    decodeBytes_sample_cons 0 (by norm_num) (by norm_num)]
  rfl

end LearnEnglish
